import Mathlib

/-!
Verification of the segmented-transcription core of a whisper web app
(`app.py`): segment planning, overlap-aware text merging, sub-segment
timestamp adjustment, the transcription fallback chain, the per-task
cleanup step, and the task queue.  Python strings are modelled as
`List Char`, time durations as rationals.
-/

namespace WhisperWeb

/-! ### Python string primitives (modelled on `List Char`) -/

/-- Python `needle in hay` substring test: `needle` occurs contiguously in
`hay` (the empty needle always matches). -/
def pyContains (needle : List Char) : List Char → Bool
  | [] => needle.isEmpty
  | c :: rest => needle.isPrefixOf (c :: rest) || pyContains needle rest

/-- Python `s.strip()`: drop whitespace from both ends. -/
def pyStrip (s : List Char) : List Char :=
  ((s.dropWhile Char.isWhitespace).reverse.dropWhile Char.isWhitespace).reverse

/-- Helper for `pySplit`: accumulates the current word (reversed). -/
def pySplitAux (acc : List Char) : List Char → List (List Char)
  | [] => if acc.isEmpty then [] else [acc.reverse]
  | c :: rest =>
    if c.isWhitespace then
      if acc.isEmpty then pySplitAux [] rest else acc.reverse :: pySplitAux [] rest
    else pySplitAux (c :: acc) rest

/-- Python `s.split()`: split on whitespace runs, producing no empty words. -/
def pySplit (s : List Char) : List (List Char) := pySplitAux [] s

/-- Python `' '.join(ws)`. -/
def joinWords : List (List Char) → List Char
  | [] => []
  | [w] => w
  | w :: ws => w ++ ' ' :: joinWords ws

/-- Python `s[-k:]` for `k > 0`: the last `k` characters (all of `s` when
`k ≥ len(s)`). -/
def pyTakeLast (s : List Char) (k : Nat) : List Char := s.drop (s.length - k)

/-- Python `s.endswith(' ')`. -/
def endsWithSpace (s : List Char) : Bool := s.getLast? == some ' '

/-- The append idiom of the merge loop (`app.py` lines 343-345, 354-356,
362-364): `if not combined_text.endswith(' '): combined_text += " "`
followed by `combined_text += piece`. -/
def appendPiece (combined piece : List Char) : List Char :=
  (if endsWithSpace combined then combined else combined ++ [' ']) ++ piece

/-! ### Overlap-aware text merge (`transcribe_with_progress`, lines 314-364) -/

/-- One iteration `j` of the overlap scan (`app.py` lines 336-358).  Returns
`some combined'` when the loop body reaches `break` (having possibly appended
text to `combined`), and `none` when the loop moves on to the next `j`. -/
def tryOverlapAt (combined : List Char) (words : List (List Char))
    (isLast : Bool) (j : Nat) : Option (List Char) :=
  let test_phrase := joinWords (words.take (j+1))
  if test_phrase.length > 3 &&
      pyContains test_phrase (pyTakeLast combined (test_phrase.length * 3)) then
    let remaining_text := joinWords (words.drop (j+1))
    if !remaining_text.isEmpty then
      some (appendPiece combined remaining_text)
    else if isLast && decide (j < words.length - 1) then
      let keep_from := max j (words.length / 2)
      let remaining := joinWords (words.drop keep_from)
      some (if !remaining.isEmpty then appendPiece combined remaining else combined)
    else none
  else none

/-- Processing of one window's text in the merge loop for a window of index
`i > 0` (`app.py` lines 326-364).  `isLast` is `i == len(segments) - 1`. -/
def mergeStep (combined rawText : List Char) (isLast : Bool) : List Char :=
  let current_text := pyStrip rawText
  if current_text.isEmpty then combined
  else
    let words := pySplit current_text
    if words.isEmpty then combined
    else
      let max_check_words := min (if isLast then 5 else 10) words.length
      match (List.range max_check_words).findSome? (tryOverlapAt combined words isLast) with
      | some combined' => combined'
      | none => appendPiece combined current_text

/-- The text-merge loop over windows `1..n-1`, carrying `combined_text`. -/
def mergeTextsAux (combined : List Char) : List (List Char) → List Char
  | [] => combined
  | t :: rest => mergeTextsAux (mergeStep combined t rest.isEmpty) rest

/-- `combined_text` after the merge loop of `app.py` lines 318-364:
window 0's stripped text is the seed, later windows go through
`mergeStep`. -/
def mergeTexts : List (List Char) → List Char
  | [] => []
  | t0 :: rest => mergeTextsAux (pyStrip t0) rest

/-- The scan condition of `app.py` line 339 fails at every `j`: no leading
phrase of more than 3 characters built from the first `max_check_words`
words of the window occurs in the last `3·len(phrase)` characters of
`combined`. -/
def noOverlapFound (combined t : List Char) (isLast : Bool) : Bool :=
  let words := pySplit (pyStrip t)
  let max_check_words := min (if isLast then 5 else 10) words.length
  (List.range max_check_words).all fun j =>
    let test_phrase := joinWords (words.take (j+1))
    !(test_phrase.length > 3 &&
      pyContains test_phrase (pyTakeLast combined (test_phrase.length * 3)))

/-- `noOverlapFound` holds at every step of the merge loop: each window after
the first has no matching leading phrase against the text merged so far. -/
def noOverlapChain (combined : List Char) : List (List Char) → Bool
  | [] => true
  | t :: rest => noOverlapFound combined t rest.isEmpty &&
      noOverlapChain (mergeStep combined t rest.isEmpty) rest

/-! ### Segment planner (`transcribe_with_progress`, lines 266-286) -/

/-- `overlap_duration = 2` (`app.py` line 268). -/
def overlap_duration : ℚ := 2

/-- `total_segments = int(np.ceil(total_duration / segment_duration))`
(line 273). -/
def total_segments (D W : ℚ) : ℕ := ⌈D / W⌉₊

/-- `start_time` of window `i` (lines 276-279): `i*W`, minus the 2-second
overlap for every window after the first. -/
def windowStart (W : ℚ) (i : ℕ) : ℚ :=
  if 0 < i then i * W - overlap_duration else i * W

/-- `end_time` of window `i` (line 281). -/
def windowEnd (D W : ℚ) (i : ℕ) : ℚ := min ((i + 1) * W) D

/-- The planned windows in order (the loop of lines 275-286). -/
def planWindows (D W : ℚ) : List (ℚ × ℚ) :=
  (List.range (total_segments D W)).map fun i => (windowStart W i, windowEnd D W i)

/-- The window-start formula as the spec states it:
`max(0, i·W − O·[i>0])` (spec §4.2; claim C2). -/
def specWindowStart (W : ℚ) (i : ℕ) : ℚ :=
  max 0 (if 0 < i then i * W - overlap_duration else i * W)

/-! ### Sub-segment timestamp merge (`transcribe_with_progress`,
lines 366-379) -/

/-- A transcription sub-segment (a whisper `segment` dict with its `start`
and `end` timestamps; `endTime` models the `end` key). -/
structure Seg where
  start : ℚ
  endTime : ℚ
  deriving Repr, DecidableEq

/-- Timestamp adjustment for a sub-segment of window `i` (lines 368-375):
both timestamps are shifted by `base_time`, which is `i*W` minus the overlap
for every window after the first — i.e. the window's actual start offset. -/
def adjustSeg (W : ℚ) (i : ℕ) (s : Seg) : Seg :=
  ⟨s.start + windowStart W i, s.endTime + windowStart W i⟩

/-- The adjustment as the spec's words state it: shift by `i·W`, the
window's naive offset before overlap subtraction (claim C4). -/
def specAdjustSeg (W : ℚ) (i : ℕ) (s : Seg) : Seg :=
  ⟨s.start + i * W, s.endTime + i * W⟩

/-- The filter of line 378: an (already adjusted) sub-segment of window `i`
is kept iff `i == 0` or its start is at least `i*W − overlap/2`. -/
def keepSeg (W : ℚ) (i : ℕ) (s : Seg) : Bool :=
  i == 0 || decide (s.start ≥ i * W - overlap_duration / 2)

/-- All sub-segments contributed by window `i` to `all_segments`
(lines 366-379): adjusted, then filtered. -/
def processWindow (W : ℚ) (i : ℕ) (segs : List Seg) : List Seg :=
  (segs.map (adjustSeg W i)).filter (keepSeg W i)

/-- The `all_segments` accumulation over windows `i, i+1, …`. -/
def mergeSegsAux (W : ℚ) (i : ℕ) : List (List Seg) → List Seg
  | [] => []
  | segs :: rest => processWindow W i segs ++ mergeSegsAux W (i + 1) rest

/-- `all_segments` after the loop of lines 318-379 (sub-segment part),
starting from window 0. -/
def mergeSegs (W : ℚ) (results : List (List Seg)) : List Seg :=
  mergeSegsAux W 0 results

/-! ### Fallback chain and per-task cleanup (`transcribe_with_progress`
line 390-393, `transcribe_with_interrupt` lines 446-453,
`transcribe_audio_process` lines 459-580) -/

/-- Which of the underlying calls fail during one task run.  `loadFails`
models `load_model` returning `None` (lines 473-477); `segmentedRaises` an
exception inside the windowed path of `transcribe_with_progress`;
`fallback1Raises` the whole-file `model.transcribe` of line 393;
`fallback2Raises` the whole-file `model.transcribe` of line 450;
`persistFails` an I/O error while writing the output file (line 495). -/
structure Behavior where
  loadFails : Bool
  segmentedRaises : Bool
  fallback1Raises : Bool
  fallback2Raises : Bool
  persistFails : Bool
  deriving Repr, DecidableEq

/-- Which path produced a transcription result. -/
inductive TResult where
  | segmented
  | wholeFile
  deriving Repr, DecidableEq

/-- `transcribe_with_progress` (lines 253-393) viewed at the level of its
fallback structure: on any exception in the segmented path it makes one
whole-file `model.transcribe` call (line 393); if that call raises too, the
exception propagates to the caller.  The second component counts whole-file
calls made inside this function. -/
def transcribe_with_progress_run (b : Behavior) : Except Unit TResult × ℕ :=
  if !b.segmentedRaises then (Except.ok TResult.segmented, 0)
  else if !b.fallback1Raises then (Except.ok TResult.wholeFile, 1)
  else (Except.error (), 1)

/-- `transcribe_with_interrupt` (lines 395-453): an exception escaping its
body triggers one more whole-file `model.transcribe` call (line 450); if
that one also raises, `None` is returned (line 453). -/
def transcribe_with_interrupt_run (b : Behavior) : Option TResult × ℕ :=
  match transcribe_with_progress_run b with
  | (Except.ok r, n) => (some r, n)
  | (Except.error _, n) =>
    if !b.fallback2Raises then (some TResult.wholeFile, n + 1)
    else (none, n + 1)

/-- Total number of whole-file (non-segmented) `model.transcribe` calls made
while transcribing one task. -/
def wholeFileCalls (b : Behavior) : ℕ := (transcribe_with_interrupt_run b).2

/-- Outcome record of one `transcribe_audio_process` run: the returned
value, the `task_update` statuses emitted by the run, whether the output
file was written, whether the call raised to its caller, and how many times
the `finally` block called `release_model_memory`. -/
structure ProcResult where
  result : Option TResult
  statuses : List String
  outputWritten : Bool
  raised : Bool
  releaseCalls : ℕ
  deriving Repr, DecidableEq

/-- The `finally` block of lines 528-580, counting `release_model_memory`
calls.  When the task id is in `active_transcriptions`, the local `gpu_ids`
is rebound to the registry entry's list (line 532) and, if non-empty,
released once (line 536); the final sweep (line 567) then releases once more
whenever the (possibly rebound) `gpu_ids` is non-empty. -/
def cleanupReleaseCalls (inRegistry : Bool) (registryGpuIds paramGpuIds : List ℕ) : ℕ :=
  let firstCall := if inRegistry && !registryGpuIds.isEmpty then 1 else 0
  let gpu_ids := if inRegistry then registryGpuIds else paramGpuIds
  firstCall + (if !gpu_ids.isEmpty then 1 else 0)

/-- `transcribe_audio_process` (lines 459-580): emits an initial
`processing` event; a `None` model aborts via the `except` clause (a
`failed` emit, then re-raise); a `None` transcription result returns `None`
with no further event (lines 488-490); a persist error goes through the
`except` clause; success writes the output and emits `completed`.  The
`finally` block always runs. -/
def transcribe_audio_process_run (b : Behavior) (inRegistry : Bool)
    (registryGpuIds paramGpuIds : List ℕ) : ProcResult :=
  let rel := cleanupReleaseCalls inRegistry registryGpuIds paramGpuIds
  if b.loadFails then
    { result := none, statuses := ["processing", "failed"], outputWritten := false,
      raised := true, releaseCalls := rel }
  else
    match transcribe_with_interrupt_run b with
    | (none, _) =>
      { result := none, statuses := ["processing"], outputWritten := false,
        raised := false, releaseCalls := rel }
    | (some r, _) =>
      if b.persistFails then
        { result := none, statuses := ["processing", "failed"], outputWritten := false,
          raised := true, releaseCalls := rel }
      else
        { result := some r, statuses := ["processing", "completed"], outputWritten := true,
          raised := false, releaseCalls := rel }

/-! ### Task queue and worker notifications (`add_to_queue` lines 737-821,
`transcription_worker` lines 583-626) -/

/-- An emitted `task_update` event: task id, `status` field, and the
`position` field when present. -/
structure QueueEvent where
  task_id : String
  status : String
  position : Option ℕ
  deriving Repr, DecidableEq

/-- The cross-thread shared state: the pending `transcription_queue` and the
ids in `active_transcriptions`. -/
structure SysState where
  transcription_queue : List String
  active_transcriptions : List String
  deriving Repr, DecidableEq

/-- One iteration of the per-file body of `add_to_queue` (lines 775-805):
append the task, emit a `queued` event whose position is the new queue
length, and — when the queue was empty before the append — immediately also
emit a `processing` event for this task. -/
def add_to_queue_run (st : SysState) (t : String) : SysState × List QueueEvent :=
  let is_first_task := st.transcription_queue.isEmpty
  let q := st.transcription_queue ++ [t]
  (⟨q, st.active_transcriptions⟩,
    ⟨t, "queued", some q.length⟩ ::
      (if is_first_task then [⟨t, "processing", none⟩] else []))

/-- The dequeue step at the top of the worker loop (lines 586-602): the
head moves from the queue into `active_transcriptions`. -/
def worker_dequeue (st : SysState) : SysState × Option String :=
  match st.transcription_queue with
  | [] => (st, none)
  | t :: rest => (⟨rest, st.active_transcriptions ++ [t]⟩, some t)

/-- The post-task check of the worker (lines 612-624), which runs only after
`transcribe_audio_process` has returned — i.e. after its `finally` cleanup:
emit a `processing` event for the new queue head, if any. -/
def worker_next_notification (st : SysState) : List QueueEvent :=
  match st.transcription_queue with
  | [] => []
  | t :: _ => [⟨t, "processing", none⟩]

/-! ## Helper lemmas -/

theorem findSome?_eq_none_of {α β : Type} (f : α → Option β) :
    ∀ l : List α, (∀ a ∈ l, f a = none) → l.findSome? f = none := by
  intro l
  induction l with
  | nil => intro _; rfl
  | cons a l ih =>
    intro h
    have ha := h a (List.mem_cons_self a l)
    rw [List.findSome?_cons, ha]
    exact ih fun x hx => h x (List.mem_cons_of_mem a hx)

theorem exists_of_findSome?_eq_some {α β : Type} {f : α → Option β} {b : β} :
    ∀ {l : List α}, l.findSome? f = some b → ∃ a ∈ l, f a = some b := by
  intro l
  induction l with
  | nil => intro h; simp [List.findSome?] at h
  | cons a l ih =>
    intro h
    rw [List.findSome?_cons] at h
    cases hfa : f a with
    | some c =>
      rw [hfa] at h
      exact ⟨a, List.mem_cons_self a l, by rw [hfa]; simpa using h⟩
    | none =>
      rw [hfa] at h
      obtain ⟨x, hx, hfx⟩ := ih h
      exact ⟨x, List.mem_cons_of_mem a hx, hfx⟩

/-- Every word produced by `pySplitAux` is non-empty (given the accumulator
invariant holds trivially at each call site). -/
theorem pySplitAux_word_ne_nil :
    ∀ (l acc : List Char) (w : List Char), w ∈ pySplitAux acc l → w ≠ [] := by
  intro l
  induction l with
  | nil =>
    intro acc w hw
    by_cases hacc : acc.isEmpty
    · simp [pySplitAux, hacc] at hw
    · simp [pySplitAux, hacc] at hw
      subst hw
      simp [List.isEmpty_iff] at hacc
      simpa using hacc
  | cons c rest ih =>
    intro acc w hw
    by_cases hws : c.isWhitespace
    · by_cases hacc : acc.isEmpty
      · simp [pySplitAux, hws, hacc] at hw
        exact ih [] w hw
      · simp [pySplitAux, hws, hacc] at hw
        rcases hw with hw | hw
        · subst hw
          simp [List.isEmpty_iff] at hacc
          simpa using hacc
        · exact ih [] w hw
    · simp [pySplitAux, hws] at hw
      exact ih (c :: acc) w hw

/-- Every word produced by `pySplit` is non-empty. -/
theorem pySplit_word_ne_nil {s w : List Char} (hw : w ∈ pySplit s) : w ≠ [] :=
  pySplitAux_word_ne_nil s [] w hw

/-- `joinWords` of a non-empty list of non-empty words is non-empty. -/
theorem joinWords_ne_nil {ws : List (List Char)} (hws : ws ≠ [])
    (h : ∀ w ∈ ws, w ≠ []) : joinWords ws ≠ [] := by
  match ws with
  | [] => exact absurd rfl hws
  | [w] => exact h w (by simp)
  | w :: x :: xs =>
    show w ++ ' ' :: joinWords (x :: xs) ≠ []
    simp

/-- `appendPiece` grows the text by at least the piece's length. -/
theorem appendPiece_length (combined piece : List Char) :
    combined.length + piece.length ≤ (appendPiece combined piece).length := by
  unfold appendPiece
  by_cases h : endsWithSpace combined <;> simp [h]

theorem dropWhile_head?_false {α : Type} (p : α → Bool) :
    ∀ l : List α, ∀ a, (l.dropWhile p).head? = some a → p a = false := by
  intro l
  induction l with
  | nil => intro a h; simp at h
  | cons x xs ih =>
    intro a h
    by_cases hp : p x
    · rw [List.dropWhile_cons_of_pos hp] at h
      exact ih a h
    · rw [List.dropWhile_cons_of_neg hp] at h
      simp at h
      rw [← h]
      exact Bool.eq_false_iff.mpr hp

/-- A stripped string never ends with a space. -/
theorem pyStrip_endsWithSpace (t : List Char) : endsWithSpace (pyStrip t) = false := by
  unfold pyStrip endsWithSpace
  rw [List.getLast?_reverse]
  cases hh : (((t.dropWhile Char.isWhitespace).reverse).dropWhile Char.isWhitespace).head? with
  | none => rfl
  | some c =>
    have hc := dropWhile_head?_false Char.isWhitespace _ c hh
    have : c ≠ ' ' := by
      intro e
      rw [e] at hc
      simp [Char.isWhitespace] at hc
    simpa using this

theorem endsWithSpace_append (x piece : List Char) (hp : piece ≠ []) :
    endsWithSpace (x ++ piece) = endsWithSpace piece := by
  unfold endsWithSpace
  rw [List.getLast?_append_of_ne_nil x hp]

theorem appendPiece_no_trailing (combined piece : List Char)
    (hc : endsWithSpace combined = false) :
    appendPiece combined piece = combined ++ ' ' :: piece := by
  simp [appendPiece, hc]

theorem endsWithSpace_appendPiece (combined piece : List Char) (hp : piece ≠ [])
    (hps : endsWithSpace piece = false) :
    endsWithSpace (appendPiece combined piece) = false := by
  unfold appendPiece
  rw [endsWithSpace_append _ piece hp, hps]

/-- When the overlap-scan condition fails for every `j`, the merge step
appends the entire (stripped) window text, whether the window is final or
not. -/
theorem mergeStep_of_noOverlapFound (combined t : List Char) (isLast : Bool)
    (hw : pySplit (pyStrip t) ≠ [])
    (h : noOverlapFound combined t isLast = true) :
    mergeStep combined t isLast = appendPiece combined (pyStrip t) := by
  have hcur : pyStrip t ≠ [] := by
    intro e
    apply hw
    rw [e]
    rfl
  have h1 : (pyStrip t).isEmpty = false := by
    simpa [List.isEmpty_iff] using hcur
  have h2 : (pySplit (pyStrip t)).isEmpty = false := by
    simpa [List.isEmpty_iff] using hw
  have hnone : (List.range (min (if isLast then 5 else 10)
      (pySplit (pyStrip t)).length)).findSome?
      (tryOverlapAt combined (pySplit (pyStrip t)) isLast) = none := by
    apply findSome?_eq_none_of
    intro j hj
    simp only [noOverlapFound, List.all_eq_true] at h
    have hc := h j hj
    simp only [Bool.not_eq_true'] at hc
    simp only [tryOverlapAt]
    rw [if_neg]
    simp [hc]
  simp only [mergeStep, h1, h2, Bool.false_eq_true, if_false, hnone]

/-- A `break` of the overlap scan always appends a non-empty remainder: the
dead branch at line 349 (full match on a final window with
`j < len(words) - 1`) is unreachable, so a `some` result strictly grows the
merged text. -/
theorem tryOverlapAt_growth (combined : List Char) (words : List (List Char))
    (isLast : Bool) (hw : ∀ w ∈ words, w ≠ []) (j : ℕ) (c : List Char)
    (h : tryOverlapAt combined words isLast j = some c) :
    combined.length < c.length := by
  simp only [tryOverlapAt] at h
  by_cases hcond : (decide ((joinWords (List.take (j + 1) words)).length > 3) &&
      pyContains (joinWords (List.take (j + 1) words))
        (pyTakeLast combined ((joinWords (List.take (j + 1) words)).length * 3))) = true
  · rw [if_pos hcond] at h
    by_cases hrem : (!(joinWords (List.drop (j + 1) words)).isEmpty) = true
    · rw [if_pos hrem] at h
      have hc := Option.some.inj h
      have hne : joinWords (words.drop (j + 1)) ≠ [] := by
        simpa [List.isEmpty_iff] using hrem
      have hpos : 0 < (joinWords (words.drop (j + 1))).length :=
        List.length_pos.mpr hne
      have hlen := appendPiece_length combined (joinWords (words.drop (j + 1)))
      rw [← hc]
      omega
    · rw [if_neg hrem] at h
      by_cases hguard : (isLast && decide (j < words.length - 1)) = true
      · exfalso
        have hremeq : joinWords (words.drop (j + 1)) = [] := by
          simpa [List.isEmpty_iff] using hrem
        have hdrop : words.drop (j + 1) = [] := by
          by_contra hd
          exact joinWords_ne_nil hd
            (fun w hwmem => hw w (List.drop_subset _ _ hwmem)) hremeq
        have hle : words.length ≤ j + 1 := List.drop_eq_nil_iff.mp hdrop
        simp only [Bool.and_eq_true, decide_eq_true_eq] at hguard
        omega
      · rw [if_neg hguard] at h
        exact absurd h (by simp)
  · rw [if_neg hcond] at h
    exact absurd h (by simp)

/-- `joinWords` glue step: prepending `c ++ " "` to the first word. -/
theorem joinWords_glue (c st : List Char) (ms : List (List Char)) :
    joinWords ((c ++ ' ' :: st) :: ms) = c ++ ' ' :: joinWords (st :: ms) := by
  cases ms with
  | nil => rfl
  | cons m ms =>
    show (c ++ ' ' :: st) ++ ' ' :: joinWords (m :: ms)
        = c ++ ' ' :: (st ++ ' ' :: joinWords (m :: ms))
    simp [List.append_assoc]

/-- The merge loop under the chain of no-match conditions is plain
space-separated concatenation. -/
theorem mergeTextsAux_concat :
    ∀ (rest : List (List Char)) (combined : List Char),
      combined ≠ [] → endsWithSpace combined = false →
      (∀ t ∈ rest, pySplit (pyStrip t) ≠ []) →
      noOverlapChain combined rest = true →
      mergeTextsAux combined rest = joinWords (combined :: rest.map pyStrip) := by
  intro rest
  induction rest with
  | nil => intro c _ _ _ _; rfl
  | cons t rest ih =>
    intro c hc hcs hne hchain
    simp only [noOverlapChain, Bool.and_eq_true] at hchain
    obtain ⟨hno, hchain'⟩ := hchain
    have hwt : pySplit (pyStrip t) ≠ [] := hne t (by simp)
    have hst : pyStrip t ≠ [] := by
      intro e
      apply hwt
      rw [e]
      rfl
    have hstep : mergeStep c t rest.isEmpty = appendPiece c (pyStrip t) :=
      mergeStep_of_noOverlapFound c t rest.isEmpty hwt hno
    have happ : appendPiece c (pyStrip t) = c ++ ' ' :: pyStrip t :=
      appendPiece_no_trailing c _ hcs
    have hews : endsWithSpace (c ++ ' ' :: pyStrip t) = false := by
      rw [List.append_cons, endsWithSpace_append _ _ hst, pyStrip_endsWithSpace]
    show mergeTextsAux (mergeStep c t rest.isEmpty) rest = _
    rw [hstep, happ]
    rw [hstep, happ] at hchain'
    rw [ih (c ++ ' ' :: pyStrip t) (by simp) hews
      (fun x hx => hne x (List.mem_cons_of_mem t hx)) hchain']
    rw [List.map_cons, joinWords_glue]
    rfl

/-- Bounds on the start of every kept, adjusted sub-segment of window `i`:
at least `i·W − 1` (from the filter, or from `start ≥ 0` for window 0) and
at most `(i+1)·W` (the window's end). -/
theorem processWindow_bounds (D W : ℚ) (i : ℕ) (segs : List Seg)
    (h : ∀ s ∈ segs, 0 ≤ s.start ∧ s.start ≤ windowEnd D W i - windowStart W i) :
    ∀ x ∈ processWindow W i segs,
      (i : ℚ) * W - 1 ≤ x.start ∧ x.start ≤ ((i : ℚ) + 1) * W := by
  intro x hx
  simp only [processWindow, List.mem_filter, List.mem_map] at hx
  obtain ⟨⟨s, hs, rfl⟩, hkeep⟩ := hx
  obtain ⟨hs0, hsU⟩ := h s hs
  have hEnd : windowEnd D W i ≤ ((i : ℚ) + 1) * W := by
    unfold windowEnd
    exact min_le_left _ _
  have hadj : (adjustSeg W i s).start = s.start + windowStart W i := rfl
  constructor
  · cases i with
    | zero =>
      rw [hadj]
      simp only [windowStart, lt_self_iff_false, if_false, Nat.cast_zero, zero_mul]
      linarith
    | succ n =>
      simp only [keepSeg, Nat.succ_ne_zero, beq_iff_eq, Bool.or_eq_true,
        decide_eq_true_eq, overlap_duration] at hkeep
      rcases hkeep with hkeep | hkeep
      · exact hkeep.elim
      · have : ((n + 1 : ℕ) : ℚ) * W - 2 / 2 ≤ (adjustSeg W (n + 1) s).start := hkeep
        push_cast at this ⊢
        linarith
  · rw [hadj]
    linarith

/-- Adjusting by a constant and filtering keeps the per-window order. -/
theorem processWindow_pairwise (W : ℚ) (i : ℕ) (segs : List Seg)
    (h : List.Pairwise (fun a b : Seg => a.start ≤ b.start) segs) :
    List.Pairwise (fun a b : Seg => a.start ≤ b.start) (processWindow W i segs) := by
  apply List.Pairwise.filter
  exact List.Pairwise.map _ (fun a b hab => by
    show (adjustSeg W i a).start ≤ (adjustSeg W i b).start
    simp only [adjustSeg]
    linarith) h

/-- Every sub-segment emitted from window `k` onwards starts at or after
`k·W − 1`. -/
theorem mergeSegsAux_lower (D W : ℚ) (hW : 0 < W) :
    ∀ (L : List (List Seg)) (k : ℕ),
      (∀ j segs, L.get? j = some segs →
        ∀ s ∈ segs, 0 ≤ s.start ∧ s.start ≤ windowEnd D W (k + j) - windowStart W (k + j)) →
      ∀ x ∈ mergeSegsAux W k L, (k : ℚ) * W - 1 ≤ x.start := by
  intro L
  induction L with
  | nil =>
    intro k _ x hx
    simp [mergeSegsAux] at hx
  | cons segs rest ih =>
    intro k hb x hx
    simp only [mergeSegsAux, List.mem_append] at hx
    rcases hx with hx | hx
    · exact (processWindow_bounds D W k segs
        (by simpa using hb 0 segs (by simp)) x hx).1
    · have hrec := ih (k + 1) (fun j s hj => by
        simpa [show k + (j + 1) = k + 1 + j by omega] using hb (j + 1) s (by simpa using hj)) x hx
      have hkW : (k : ℚ) * W ≤ ((k : ℚ) + 1) * W := by nlinarith
      push_cast at hrec
      linarith

/-- The accumulated sub-segment list is sorted up to the 1-second
half-overlap tolerance. -/
theorem mergeSegsAux_pairwise (D W : ℚ) (hW : 0 < W) :
    ∀ (L : List (List Seg)) (k : ℕ),
      (∀ j segs, L.get? j = some segs →
        List.Pairwise (fun a b : Seg => a.start ≤ b.start) segs ∧
        ∀ s ∈ segs, 0 ≤ s.start ∧ s.start ≤ windowEnd D W (k + j) - windowStart W (k + j)) →
      List.Pairwise (fun a b : Seg => a.start ≤ b.start + 1) (mergeSegsAux W k L) := by
  intro L
  induction L with
  | nil =>
    intro k _
    simp [mergeSegsAux]
  | cons segs rest ih =>
    intro k hb
    have hb0 := hb 0 segs (by simp)
    have hbrest : ∀ j s, rest.get? j = some s →
        List.Pairwise (fun a b : Seg => a.start ≤ b.start) s ∧
        ∀ x ∈ s, 0 ≤ x.start ∧ x.start ≤ windowEnd D W (k + 1 + j) - windowStart W (k + 1 + j) := by
      intro j s hj
      simpa [show k + (j + 1) = k + 1 + j by omega] using hb (j + 1) s (by simpa using hj)
    show List.Pairwise _ (processWindow W k segs ++ mergeSegsAux W (k + 1) rest)
    rw [List.pairwise_append]
    refine ⟨?_, ih (k + 1) hbrest, ?_⟩
    · exact (processWindow_pairwise W k segs hb0.1).imp (fun hab => by linarith)
    · intro x hx y hy
      have hxu := (processWindow_bounds D W k segs (by simpa using hb0.2) x hx).2
      have hyl := mergeSegsAux_lower D W hW rest (k + 1)
        (fun j s hj => (hbrest j s hj).2) y hy
      push_cast at hxu hyl
      linarith

/-! ## Claim theorems -/

/-- C1 counterexample: for a task that completed successfully, sitting in
`active_transcriptions` with gpu list `[0]` (the worker's normal setup),
the cleanup of `transcribe_audio_process` calls `release_model_memory`
twice — once in the registry branch (line 536) and once in the final sweep
(line 567) — so the cleanup-call-count is 2, not 1 as the claim states. -/
theorem C1_counterexample :
    (transcribe_audio_process_run ⟨false, false, false, false, false⟩ true [0] [0]).releaseCalls = 2 ∧
    (transcribe_audio_process_run ⟨false, false, false, false, false⟩ true [0] [0]).releaseCalls ≠ 1 := by
  constructor <;> decide

/-- C1 amended: for every task processed by the worker (task id registered
in `active_transcriptions` with its gpu list), the cleanup step runs and
calls `release_model_memory` the same number of times regardless of the
task's outcome — but that number is 2 whenever the gpu list is non-empty
(and 0 in CPU mode), not exactly 1. -/
theorem C1_release_count (b : Behavior) (gpuIds : List ℕ) :
    (transcribe_audio_process_run b true gpuIds gpuIds).releaseCalls
      = (if gpuIds.isEmpty then 0 else 2) := by
  obtain ⟨l, s, f1, f2, p⟩ := b
  cases l <;> cases s <;> cases f1 <;> cases f2 <;> cases p <;> cases gpuIds <;>
    simp [transcribe_audio_process_run, cleanupReleaseCalls,
      transcribe_with_interrupt_run, transcribe_with_progress_run]

/-- C6 counterexample: when the windowed transcription raises and the first
whole-file fallback (inside `transcribe_with_progress`, line 393) raises
too, `transcribe_with_interrupt` makes a second whole-file fallback call
(line 450) — two whole-file fallback calls for one task, contradicting "no
more than one whole-file fallback call occurs per task". -/
theorem C6_counterexample :
    wholeFileCalls ⟨false, true, true, true, false⟩ = 2 ∧
    ¬ wholeFileCalls ⟨false, true, true, true, false⟩ ≤ 1 := by
  constructor <;> decide

/-- C6 amended: when the windowed transcription raises, the code makes one
whole-file fallback call inside `transcribe_with_progress`; if that call
raises as well, `transcribe_with_interrupt` makes a second whole-file
fallback call — so one or two (not always exactly one) whole-file calls
occur, and the task result is `None` exactly when both fallback calls
raise. -/
theorem C6_fallback_count (b : Behavior) (h : b.segmentedRaises = true) :
    wholeFileCalls b = (if b.fallback1Raises then 2 else 1) ∧
    ((transcribe_with_interrupt_run b).1 = none ↔
      b.fallback1Raises = true ∧ b.fallback2Raises = true) := by
  obtain ⟨l, s, f1, f2, p⟩ := b
  cases s with
  | false => cases h
  | true =>
    cases f1 <;> cases f2 <;>
      simp [wholeFileCalls, transcribe_with_interrupt_run, transcribe_with_progress_run]

/-- Witness for `C6_fallback_count` at a behavior whose windowed
transcription raises but whose first fallback succeeds. -/
theorem C6_witness :
    (⟨false, true, false, false, false⟩ : Behavior).segmentedRaises = true ∧
    (wholeFileCalls ⟨false, true, false, false, false⟩
        = (if (⟨false, true, false, false, false⟩ : Behavior).fallback1Raises then 2 else 1) ∧
      ((transcribe_with_interrupt_run ⟨false, true, false, false, false⟩).1 = none ↔
        (⟨false, true, false, false, false⟩ : Behavior).fallback1Raises = true ∧
        (⟨false, true, false, false, false⟩ : Behavior).fallback2Raises = true)) :=
  ⟨rfl, C6_fallback_count ⟨false, true, false, false, false⟩ rfl⟩

/-- C7 counterexample: with the first task already dequeued and processing
(`active_transcriptions = ["t1"]`, empty queue), enqueuing a second task
reports it at queue position 1 — not 2 — and immediately emits a
`processing` event for it, before the first task's cleanup. -/
theorem C7_counterexample :
    (add_to_queue_run ⟨[], ["t1"]⟩ "t2").2 =
      [⟨"t2", "queued", some 1⟩, ⟨"t2", "processing", none⟩] ∧
    (⟨"t2", "queued", some 2⟩ : QueueEvent) ∉ (add_to_queue_run ⟨[], ["t1"]⟩ "t2").2 ∧
    (⟨"t2", "processing", none⟩ : QueueEvent) ∈ (add_to_queue_run ⟨[], ["t1"]⟩ "t2").2 := by
  refine ⟨rfl, by decide, by decide⟩

/-- C7 amended: the position reported at enqueue is the queue length, which
does not count the task being processed — a task enqueued while another is
processing is reported at position 1 with status `queued` and, the queue
having been empty, immediately also receives a `processing` event.  The
second task is reported at position 2 only when both tasks are enqueued
before the worker dequeues the first; in that scenario the worker emits the
`processing` notification for the second task in the post-task check that
runs after the first task's cleanup. -/
theorem C7_queue_positions (t1 t2 : String) :
    (add_to_queue_run ⟨[], [t1]⟩ t2).2 =
      [⟨t2, "queued", some 1⟩, ⟨t2, "processing", none⟩] ∧
    (add_to_queue_run (add_to_queue_run ⟨[], []⟩ t1).1 t2).2 = [⟨t2, "queued", some 2⟩] ∧
    worker_next_notification ⟨[t2], [t1]⟩ = [⟨t2, "processing", none⟩] := by
  refine ⟨rfl, ?_, rfl⟩
  simp [add_to_queue_run]

/-- C10: when both the segmented transcription and both whole-file
fallbacks raise, `transcribe_with_interrupt` returns `None`, and
`transcribe_audio_process` then returns `None`, writes no output file, and
emits neither a `completed` nor a `failed` status event — the task ends with
no terminal `task_update` at all. -/
theorem C10_no_terminal_event (inRegistry : Bool)
    (registryGpuIds paramGpuIds : List ℕ) (persistFails : Bool) :
    (transcribe_with_interrupt_run ⟨false, true, true, true, persistFails⟩).1 = none ∧
    (transcribe_audio_process_run ⟨false, true, true, true, persistFails⟩
      inRegistry registryGpuIds paramGpuIds).result = none ∧
    (transcribe_audio_process_run ⟨false, true, true, true, persistFails⟩
      inRegistry registryGpuIds paramGpuIds).outputWritten = false ∧
    (transcribe_audio_process_run ⟨false, true, true, true, persistFails⟩
      inRegistry registryGpuIds paramGpuIds).raised = false ∧
    "completed" ∉ (transcribe_audio_process_run ⟨false, true, true, true, persistFails⟩
      inRegistry registryGpuIds paramGpuIds).statuses ∧
    "failed" ∉ (transcribe_audio_process_run ⟨false, true, true, true, persistFails⟩
      inRegistry registryGpuIds paramGpuIds).statuses := by
  cases persistFails <;>
    simp [transcribe_audio_process_run, transcribe_with_interrupt_run,
      transcribe_with_progress_run]

/-- C3 counterexample: the final window "alpha beta gamma delta" has no
matching leading phrase against the merged text "hello world", yet the
merge appends the entire window text — not just its second half
("gamma delta"), as the claim states for a no-match final window. -/
theorem C3_counterexample :
    noOverlapFound "hello world".data "alpha beta gamma delta".data true = true ∧
    mergeTexts ["hello world".data, "alpha beta gamma delta".data] =
      "hello world alpha beta gamma delta".data ∧
    mergeTexts ["hello world".data, "alpha beta gamma delta".data] ≠
      "hello world gamma delta".data := by
  refine ⟨by decide, by decide, by decide⟩

/-- C3 amended: during the merge, for every window `i > 0` whose text has no
matching leading phrase against the tail of the already-merged text, the
entire stripped window text is appended unchanged — whether or not `i` is
the final window.  The first-half-discard fallback the claim describes for
final windows sits in an unreachable branch and never applies to a no-match
window. -/
theorem C3_no_match_appends_whole (combined t : List Char) (isLast : Bool)
    (hw : pySplit (pyStrip t) ≠ [])
    (hnm : noOverlapFound combined t isLast = true) :
    mergeStep combined t isLast = appendPiece combined (pyStrip t) :=
  mergeStep_of_noOverlapFound combined t isLast hw hnm

/-- Witness for `C3_no_match_appends_whole` on a concrete no-match
non-final window. -/
theorem C3_witness :
    (pySplit (pyStrip "alpha beta".data) ≠ [] ∧
      noOverlapFound "hello".data "alpha beta".data false = true) ∧
    mergeStep "hello".data "alpha beta".data false =
      appendPiece "hello".data (pyStrip "alpha beta".data) :=
  ⟨⟨by decide, by decide⟩,
    C3_no_match_appends_whole "hello".data "alpha beta".data false (by decide) (by decide)⟩

/-- C9 counterexample: a final window whose raw text is the non-empty
string `"   "` (whitespace only) contributes nothing — the merge leaves the
merged text unchanged, so no non-empty contribution is appended for a
final window with non-empty text. -/
theorem C9_counterexample :
    "   ".data ≠ [] ∧
    mergeStep "hello there".data "   ".data true = "hello there".data := by
  constructor <;> decide

/-- C9 amended: for every final window whose text is non-empty after
stripping (it contains at least one word), the merge appends a non-empty
contribution — the merged text strictly grows and is non-empty — even when
the window's entire leading word sequence already matches the tail of the
merged text (the whole window text is then re-appended, because the
half-keeping branch is unreachable and the scan ends with no overlap
found). -/
theorem C9_final_window_contributes (combined t : List Char)
    (hw : pySplit (pyStrip t) ≠ []) :
    combined.length < (mergeStep combined t true).length ∧
    mergeStep combined t true ≠ [] := by
  have hcur : pyStrip t ≠ [] := by
    intro e
    apply hw
    rw [e]
    rfl
  have h1 : (pyStrip t).isEmpty = false := by
    simpa [List.isEmpty_iff] using hcur
  have h2 : (pySplit (pyStrip t)).isEmpty = false := by
    simpa [List.isEmpty_iff] using hw
  have hgrow : combined.length < (mergeStep combined t true).length := by
    simp only [mergeStep, h1, h2, Bool.false_eq_true, if_false]
    split
    · rename_i c hfs
      obtain ⟨j, _, htry⟩ := exists_of_findSome?_eq_some hfs
      exact tryOverlapAt_growth combined _ true
        (fun w hwm => pySplit_word_ne_nil hwm) j c htry
    · have hlen := appendPiece_length combined (pyStrip t)
      have hpos : 0 < (pyStrip t).length := List.length_pos.mpr hcur
      omega
  refine ⟨hgrow, ?_⟩
  intro e
  rw [e] at hgrow
  simp at hgrow

/-- Witness for `C9_final_window_contributes` on a final window whose whole
word sequence matches the tail of the merged text. -/
theorem C9_witness :
    pySplit (pyStrip "hello".data) ≠ [] ∧
    ("say hello".data.length < (mergeStep "say hello".data "hello".data true).length ∧
      mergeStep "say hello".data "hello".data true ≠ []) :=
  ⟨by decide, C9_final_window_contributes "say hello".data "hello".data (by decide)⟩

/-- C8: for every sequence of window texts each containing at least one
word, if at every merge step no leading phrase of more than 3 characters
built from the first checked words of the window occurs in the last
`3·len(phrase)` characters of the text merged so far, then the merged text
equals the stripped window texts concatenated in order with exactly one
space between consecutive windows. -/
theorem C8_nonoverlap_is_concat (t0 : List Char) (rest : List (List Char))
    (hne : ∀ t ∈ t0 :: rest, pySplit (pyStrip t) ≠ [])
    (hnm : noOverlapChain (pyStrip t0) rest = true) :
    mergeTexts (t0 :: rest) = joinWords ((t0 :: rest).map pyStrip) := by
  have h0 : pySplit (pyStrip t0) ≠ [] := hne t0 (by simp)
  have hs0 : pyStrip t0 ≠ [] := by
    intro e
    apply h0
    rw [e]
    rfl
  show mergeTextsAux (pyStrip t0) rest = _
  rw [mergeTextsAux_concat rest (pyStrip t0) hs0 (pyStrip_endsWithSpace t0)
    (fun x hx => hne x (List.mem_cons_of_mem t0 hx)) hnm]
  rw [List.map_cons]

/-- Witness for `C8_nonoverlap_is_concat` on two non-overlapping windows. -/
theorem C8_witness :
    ((∀ t ∈ ["hello world".data, "alpha beta".data], pySplit (pyStrip t) ≠ []) ∧
      noOverlapChain (pyStrip "hello world".data) ["alpha beta".data] = true) ∧
    mergeTexts ["hello world".data, "alpha beta".data] =
      joinWords (["hello world".data, "alpha beta".data].map pyStrip) :=
  ⟨⟨by decide, by decide⟩,
    C8_nonoverlap_is_concat "hello world".data ["alpha beta".data] (by decide) (by decide)⟩

/-- C2 counterexample: with duration `D = 2` and window length `W = 1`
(both allowed by the claim, which quantifies over all `W > 0`), the planner
produces 2 windows and window 1 starts at `−1`: the code applies no
`max(0, ·)` clamp, so the window does not match the claimed span and does
not lie within `[0, D]`. -/
theorem C2_counterexample :
    total_segments 2 1 = 2 ∧
    windowStart 1 1 = -1 ∧
    windowStart 1 1 ≠ specWindowStart 1 1 ∧
    ¬ 0 ≤ windowStart 1 1 := by
  refine ⟨?_, ?_, ?_, ?_⟩
  · simp [total_segments]
  · norm_num [windowStart, overlap_duration]
  · norm_num [windowStart, specWindowStart, overlap_duration]
  · norm_num [windowStart, overlap_duration]

/-- C2 amended: when the configured window length is at least the 2-second
overlap (`W ≥ 2`), the planner produces exactly `⌈D/W⌉` windows; window `i`
starts at `i·W − 2·[i>0]` — which then coincides with the claimed
`max(0, i·W − 2·[i>0])` — ends at `min((i+1)·W, D)`, lies within `[0, D]`
with positive extent, and every window after the first starts exactly 2
seconds before its naive boundary `i·W`.  (For `0 < W < 2` the code has no
clamp at 0 and the containment in `[0, D]` fails.) -/
theorem C2_planner (D W : ℚ) (hD : 0 < D) (hW : 2 ≤ W) :
    (planWindows D W).length = ⌈D / W⌉₊ ∧
    ∀ i < total_segments D W,
      windowStart W i = specWindowStart W i ∧
      0 ≤ windowStart W i ∧
      windowEnd D W i ≤ D ∧
      windowStart W i < windowEnd D W i ∧
      (0 < i → windowStart W i = i * W - 2) := by
  have hW0 : (0 : ℚ) < W := lt_of_lt_of_le two_pos hW
  constructor
  · simp [planWindows, total_segments]
  · intro i hi
    have hiW : (i : ℚ) * W < D := by
      have h1 : (i : ℚ) < D / W := Nat.lt_ceil.mp hi
      calc (i : ℚ) * W < (D / W) * W := mul_lt_mul_of_pos_right h1 hW0
        _ = D := div_mul_cancel₀ D (ne_of_gt hW0)
    have hEndD : windowEnd D W i ≤ D := min_le_right _ _
    cases Nat.eq_zero_or_pos i with
    | inl h0 =>
      subst h0
      have hs : windowStart W 0 = 0 := by simp [windowStart]
      have hlt : windowStart W 0 < windowEnd D W 0 := by
        rw [hs]
        unfold windowEnd
        push_cast
        rw [lt_min_iff]
        constructor <;> nlinarith
      exact ⟨by simp [windowStart, specWindowStart], by rw [hs], hEndD, hlt,
        fun h => absurd h (by omega)⟩
    | inr hpos =>
      have hone : (1 : ℚ) ≤ (i : ℚ) := by exact_mod_cast hpos
      have hWi : W ≤ (i : ℚ) * W := by nlinarith
      have hs : windowStart W i = (i : ℚ) * W - 2 := by
        simp [windowStart, overlap_duration, hpos]
      have h0le : 0 ≤ windowStart W i := by rw [hs]; linarith
      have hspec : windowStart W i = specWindowStart W i := by
        have hnn : (0 : ℚ) ≤ (i : ℚ) * W - overlap_duration := by
          unfold overlap_duration
          linarith
        unfold windowStart specWindowStart
        rw [if_pos hpos]
        exact (max_eq_right hnn).symm
      have hlt : windowStart W i < windowEnd D W i := by
        rw [hs]
        unfold windowEnd
        rw [lt_min_iff]
        constructor <;> nlinarith [Nat.cast_add_one_pos (α := ℚ) i]
      exact ⟨hspec, h0le, hEndD, hlt, fun _ => hs⟩

/-- Witness for `C2_planner` at `D = 75`, `W = 30` (3 windows
`[0,30], [28,60], [58,75]`). -/
theorem C2_witness :
    ((0 : ℚ) < 75 ∧ (2 : ℚ) ≤ 30) ∧
    ((planWindows 75 30).length = ⌈(75 : ℚ) / 30⌉₊ ∧
      ∀ i < total_segments 75 30,
        windowStart 30 i = specWindowStart 30 i ∧
        0 ≤ windowStart 30 i ∧
        windowEnd 75 30 i ≤ 75 ∧
        windowStart 30 i < windowEnd 75 30 i ∧
        (0 < i → windowStart 30 i = i * 30 - 2)) :=
  ⟨⟨by norm_num, by norm_num⟩, C2_planner 75 30 (by norm_num) (by norm_num)⟩

/-- C4 counterexample: a sub-segment `[0, 1]` of window 1 with `W = 30` is
shifted to `[28, 29]` — by the window's actual start offset
`1·W − 2 = 28` — not to `[30, 31]` as the claim's shift amount `i·W`
dictates. -/
theorem C4_counterexample :
    adjustSeg 30 1 ⟨0, 1⟩ = ⟨28, 29⟩ ∧
    specAdjustSeg 30 1 ⟨0, 1⟩ = ⟨30, 31⟩ ∧
    adjustSeg 30 1 ⟨0, 1⟩ ≠ specAdjustSeg 30 1 ⟨0, 1⟩ := by
  refine ⟨?_, ?_, ?_⟩ <;>
    simp [adjustSeg, specAdjustSeg, windowStart, overlap_duration, Seg.mk.injEq] <;>
      norm_num

/-- C4 amended: sub-segment timestamps of window `i` are shifted by the
window's actual start offset `i·W − O·[i>0]` (overlap already subtracted),
not by `i·W`; a shifted sub-segment appears in the window's merged
contribution exactly when it arises from one of the window's raw
sub-segments and (`i = 0` or its shifted start is at least `i·W − O/2`);
window 0's sub-segments are never dropped. -/
theorem C4_shift_and_filter (W : ℚ) (i : ℕ) (segs : List Seg) :
    (∀ s : Seg, adjustSeg W i s =
      ⟨s.start + ((i : ℚ) * W - if 0 < i then 2 else 0),
        s.endTime + ((i : ℚ) * W - if 0 < i then 2 else 0)⟩) ∧
    (∀ x : Seg, x ∈ processWindow W i segs ↔
      ((∃ s ∈ segs, adjustSeg W i s = x) ∧ (i = 0 ∨ (i : ℚ) * W - 1 ≤ x.start))) ∧
    processWindow W 0 segs = segs.map (adjustSeg W 0) := by
  refine ⟨?_, ?_, ?_⟩
  · intro s
    unfold adjustSeg windowStart overlap_duration
    by_cases hi : 0 < i <;> simp [hi]
  · intro x
    simp only [processWindow, List.mem_filter, List.mem_map, keepSeg,
      Bool.or_eq_true, beq_iff_eq, decide_eq_true_eq, overlap_duration, ge_iff_le]
    constructor
    · rintro ⟨⟨s, hs, rfl⟩, hk⟩
      refine ⟨⟨s, hs, rfl⟩, ?_⟩
      rcases hk with hk | hk
      · exact Or.inl hk
      · right
        have h22 : (2 : ℚ) / 2 = 1 := by norm_num
        linarith [h22 ▸ hk]
    · rintro ⟨⟨s, hs, rfl⟩, hk⟩
      refine ⟨⟨s, hs, rfl⟩, ?_⟩
      rcases hk with hk | hk
      · exact Or.inl hk
      · right
        have h22 : (2 : ℚ) / 2 = 1 := by norm_num
        rw [h22]
        exact hk
  · simp [processWindow, keepSeg]

/-- C5 counterexample: with `W = 30`, `D = 60`, window 0 holding a single
sub-segment starting at 29.9 and window 1 a single raw sub-segment starting
at 1 (shifted to 29, kept by the filter since `29 ≥ 30 − 1`), the claim's
hypotheses hold yet the merged start times `29.9, 29` decrease. -/
theorem C5_counterexample :
    (∀ i, (hi : i < ([[⟨299/10, 30⟩], [⟨1, 2⟩]] : List (List Seg)).length) →
      List.Pairwise (fun a b : Seg => a.start ≤ b.start)
        (([[⟨299/10, 30⟩], [⟨1, 2⟩]] : List (List Seg)).get ⟨i, hi⟩) ∧
      ∀ s ∈ ([[⟨299/10, 30⟩], [⟨1, 2⟩]] : List (List Seg)).get ⟨i, hi⟩,
        0 ≤ s.start ∧ s.start ≤ windowEnd 60 30 i - windowStart 30 i) ∧
    mergeSegs 30 [[⟨299/10, 30⟩], [⟨1, 2⟩]] = [⟨299/10, 30⟩, ⟨29, 30⟩] ∧
    ¬ List.Pairwise (fun a b : Seg => a.start ≤ b.start)
        (mergeSegs 30 [[⟨299/10, 30⟩], [⟨1, 2⟩]]) := by
  have hadj0 : adjustSeg 30 0 (⟨299/10, 30⟩ : Seg) = ⟨299/10, 30⟩ := by
    simp [adjustSeg, windowStart, Seg.mk.injEq]
  have hadj1 : adjustSeg 30 1 (⟨1, 2⟩ : Seg) = ⟨29, 30⟩ := by
    simp [adjustSeg, windowStart, overlap_duration, Seg.mk.injEq]
    norm_num
  have hk0 : keepSeg 30 0 (⟨299/10, 30⟩ : Seg) = true := rfl
  have hk1 : keepSeg 30 1 (⟨29, 30⟩ : Seg) = true := by
    simp [keepSeg, overlap_duration]
    norm_num
  have hms : mergeSegs 30 [[⟨299/10, 30⟩], [⟨1, 2⟩]] = [⟨299/10, 30⟩, ⟨29, 30⟩] := by
    simp [mergeSegs, mergeSegsAux, processWindow, hadj0, hadj1, hk0, hk1]
  refine ⟨?_, hms, ?_⟩
  · intro i hi
    match i, hi with
    | 0, _ =>
      refine ⟨by simp, ?_⟩
      intro s hs
      simp at hs
      subst hs
      norm_num [windowEnd, windowStart]
    | 1, _ =>
      refine ⟨by simp, ?_⟩
      intro s hs
      simp at hs
      subst hs
      norm_num [windowEnd, windowStart, overlap_duration]
  · rw [hms]
    simp [List.pairwise_cons]
    norm_num

/-- C5 amended: under the claim's hypotheses (each window's sub-segments
sorted by start time and lying within that window's time span), the merged
sub-segment list is sorted only up to the half-overlap tolerance
`O/2 = 1s`: every earlier sub-segment starts at most 1 second after any
later one.  Exact monotone non-decrease can fail by up to 1 second at a
window boundary. -/
theorem C5_tolerance (D W : ℚ) (hW : 0 < W) (results : List (List Seg))
    (h : ∀ i, (hi : i < results.length) →
      List.Pairwise (fun a b : Seg => a.start ≤ b.start) (results.get ⟨i, hi⟩) ∧
      ∀ s ∈ results.get ⟨i, hi⟩,
        0 ≤ s.start ∧ s.start ≤ windowEnd D W i - windowStart W i) :
    List.Pairwise (fun a b : Seg => a.start ≤ b.start + 1) (mergeSegs W results) := by
  apply mergeSegsAux_pairwise D W hW results 0
  intro j segs hj
  obtain ⟨hlt, hget⟩ := List.get?_eq_some.mp hj
  have hjj := h j hlt
  rw [hget] at hjj
  simpa using hjj

/-- Witness for `C5_tolerance` on two windows with one sub-segment each. -/
theorem C5_witness :
    ((0 : ℚ) < 30 ∧
      (∀ i, (hi : i < ([[⟨1, 2⟩], [⟨5, 6⟩]] : List (List Seg)).length) →
        List.Pairwise (fun a b : Seg => a.start ≤ b.start)
          (([[⟨1, 2⟩], [⟨5, 6⟩]] : List (List Seg)).get ⟨i, hi⟩) ∧
        ∀ s ∈ ([[⟨1, 2⟩], [⟨5, 6⟩]] : List (List Seg)).get ⟨i, hi⟩,
          0 ≤ s.start ∧ s.start ≤ windowEnd 60 30 i - windowStart 30 i)) ∧
    List.Pairwise (fun a b : Seg => a.start ≤ b.start + 1)
      (mergeSegs 30 [[⟨1, 2⟩], [⟨5, 6⟩]]) := by
  have hh : ∀ i, (hi : i < ([[⟨1, 2⟩], [⟨5, 6⟩]] : List (List Seg)).length) →
      List.Pairwise (fun a b : Seg => a.start ≤ b.start)
        (([[⟨1, 2⟩], [⟨5, 6⟩]] : List (List Seg)).get ⟨i, hi⟩) ∧
      ∀ s ∈ ([[⟨1, 2⟩], [⟨5, 6⟩]] : List (List Seg)).get ⟨i, hi⟩,
        0 ≤ s.start ∧ s.start ≤ windowEnd 60 30 i - windowStart 30 i := by
    intro i hi
    match i, hi with
    | 0, _ =>
      refine ⟨by simp, ?_⟩
      intro s hs
      simp at hs
      subst hs
      norm_num [windowEnd, windowStart]
    | 1, _ =>
      refine ⟨by simp, ?_⟩
      intro s hs
      simp at hs
      subst hs
      norm_num [windowEnd, windowStart, overlap_duration]
  exact ⟨⟨by norm_num, hh⟩, C5_tolerance 60 30 (by norm_num) _ hh⟩

end WhisperWeb
